import Mathlib

/-!
Verification of the filebackend synthetic-data generator.

The development shallowly embeds the JavaScript source (the Express server in
src/unnamed/part_000, called "p0" below, and the variant in src/index.js,
called "index" below).  JS strings are Lean `String`s (wire output is built as
`List Char`), JS numbers used for sizes are `ℚ`, randomness is an explicit
oracle argument, and the faker/uuid library calls are kept symbolic as `Gen`
descriptors whose evaluation consumes the oracle.
-/

namespace FileBackend

/-! ## Word-boundary regex matching

Model of the JS regular-expression tests used in `generateField` of p0.
All patterns are of the form `\bword\b` (or an alternation of such words)
tested with the `i` flag against the lowercased field name; `\w` in JS is
ASCII `[A-Za-z0-9_]`. -/

/-- A JS word character: ASCII letter, digit or underscore. -/
def isWordChar (c : Char) : Bool := c.isAlphanum || c == '_'

/-- Model of JS `String.prototype.toLowerCase()` (ASCII range, which is all
the patterns need). -/
def lowerString (s : String) : String := String.mk (s.toList.map Char.toLower)

/-- The pattern `pat` occurs in `s` starting at position `i`. -/
def occursAt (pat s : List Char) (i : Nat) : Bool :=
  decide (((s.drop i).take pat.length) = pat)

/-- A `\b` word boundary holds on the left of position `i` of `s`. -/
def leftBoundaryAt (s : List Char) (i : Nat) : Bool :=
  decide (i = 0) || !(isWordChar (s.getD (i - 1) ' '))

/-- A `\b` word boundary holds at position `j` of `s` (looking right). -/
def rightBoundaryAt (s : List Char) (j : Nat) : Bool :=
  decide (s.length ≤ j) || !(isWordChar (s.getD j ' '))

/-- Model of the JS test `/\bpat\b/.test(s)` for a pattern made of word
characters only: some occurrence of `pat` in `s` has word boundaries on
both sides. -/
def testWord (pat : String) (s : String) : Bool :=
  let sl := s.toList
  let pl := pat.toList
  (List.range (sl.length + 1)).any fun i =>
    occursAt pl sl i && leftBoundaryAt sl i && rightBoundaryAt sl (i + pl.length)

/-- Model of the JS test `/pat\b/.test(s)`: an occurrence of `pat` with a
word boundary only on its right.  This is what p0's education pattern
`/\education\b/i` actually compiles to, because `\e` is an identity escape
for the letter `e` (there is no left `\b`). -/
def testWordRight (pat : String) (s : String) : Bool :=
  let sl := s.toList
  let pl := pat.toList
  (List.range (sl.length + 1)).any fun i =>
    occursAt pl sl i && rightBoundaryAt sl (i + pl.length)

/-! ## Data model -/

/-- One schema entry (a `properties` element of the request body). -/
structure FieldSpec where
  name : String
  type : String
  primaryKey : Bool
deriving DecidableEq

/-- Symbolic descriptor of the generator (faker / uuid library call) that the
rule table selects for a field.  Selecting a `Gen` is deterministic; the value
it produces consumes randomness and is modelled by `evalGen` below. -/
inductive Gen where
  | fullName        -- faker.person.fullName()
  | internetEmail   -- faker.internet.email()
  | educationLevel  -- getRandomEducationLevel()
  | phoneNumber     -- faker.phone.number()
  | sexType         -- faker.person.sexType()
  | city            -- faker.location.city()
  | state           -- faker.location.state()
  | streetAddress   -- faker.location.streetAddress()
  | country         -- faker.location.country()
  | zipCode         -- faker.location.zipCode()
  | companyName     -- faker.company.name()
  | birthdate       -- faker.date.birthdate() (a JS Date object)
  | fakerUuid       -- faker.string.uuid()
  | financeAmount   -- faker.finance.amount(30000, 150000, 2, dollar sign)
  | ageInt          -- faker.number.int({ min 18, max 80 })
  | loremSentences  -- faker.lorem.sentences(2)
  | internetUrl     -- faker.internet.url()
  | imageAvatar     -- faker.image.avatar()
  | loremWord       -- faker.lorem.word()
  | datatypeNumber  -- faker.datatype.number()
  | datatypeBoolean -- faker.datatype.boolean()
  | datePastISO     -- faker.date.past().toISOString()
  | numberInRange (lo hi : Nat)  -- faker.datatype.number({ min lo, max hi })
  | uuidV4          -- uuidv4()  (the uuid library)
  | emptyString     -- the literal ''
deriving DecidableEq

/-! ## Synthesis rule table, p0 variant (src/unnamed/part_000, lines 33-90) -/

/-- The name-pattern tier of p0's `generateField`: the if/else-if regex chain,
in source order, applied to the lowercased field name.  Returns `none` when no
pattern matches.  Note the third test is `testWordRight` (see its docstring). -/
def nameTier (n : String) : Option Gen :=
  if testWord "name" n then some .fullName
  else if testWord "email" n then some .internetEmail
  else if testWordRight "education" n then some .educationLevel
  else if testWord "phone" n || testWord "contact" n then some .phoneNumber
  else if testWord "gender" n then some .sexType
  else if testWord "city" n then some .city
  else if testWord "state" n then some .state
  else if testWord "address" n then some .streetAddress
  else if testWord "country" n then some .country
  else if testWord "zip" n || testWord "postal" n then some .zipCode
  else if testWord "company" n then some .companyName
  else if testWord "date" n || testWord "dob" n then some .birthdate
  else if testWord "id" n || testWord "uuid" n then some .fakerUuid
  else if testWord "salary" n || testWord "income" n then some .financeAmount
  else if testWord "age" n then some .ageInt
  else if testWord "description" n || testWord "bio" n then some .loremSentences
  else if testWord "url" n || testWord "website" n then some .internetUrl
  else if testWord "image" n || testWord "avatar" n then some .imageAvatar
  else none

/-- The `switch (prop.type)` fallback of p0's `generateField`. -/
def typeSwitch (ty : String) : Gen :=
  if ty = "string" then .loremWord
  else if ty = "number" then .datatypeNumber
  else if ty = "boolean" then .datatypeBoolean
  else if ty = "date" then .datePastISO
  else if ty = "address" then .streetAddress
  else if ty = "uuid" then .fakerUuid
  else .emptyString

/-- p0's `generateField`: name-pattern tier first, then the type switch. -/
def generateField (prop : FieldSpec) : Gen :=
  match nameTier (lowerString prop.name) with
  | some g => g
  | none => typeSwitch prop.type

/-! ## Synthesis rule table, index variant (src/index.js, lines 27-55) -/

/-- The `switch (prop.type)` fallback of index's `generateField`; identical to
p0's except that the `uuid` case calls `uuidv4()` instead of
`faker.string.uuid()`. -/
def typeSwitchIndex (ty : String) : Gen :=
  if ty = "string" then .loremWord
  else if ty = "number" then .datatypeNumber
  else if ty = "boolean" then .datatypeBoolean
  else if ty = "date" then .datePastISO
  else if ty = "address" then .streetAddress
  else if ty = "uuid" then .uuidV4
  else .emptyString

/-- index's `generateField`: three exact (lowercased name, type) special cases,
then the type switch. -/
def generateFieldIndex (prop : FieldSpec) : Gen :=
  let n := lowerString prop.name
  if n = "name" ∧ prop.type = "string" then .fullName
  else if n = "email" ∧ prop.type = "email" then .internetEmail
  else if n = "phone" ∧ prop.type = "phone" then .phoneNumber
  else typeSwitchIndex prop.type

/-! ## Record synthesizer (p0 lines 93-110, index lines 57-74)

A JS object is modelled as an association list in key-insertion order;
`record[k] = v` is `setKey`, which overwrites in place when the key exists
and appends otherwise. -/

/-- JS property assignment `record[k] = v` on an object modelled as an
insertion-ordered association list. -/
def setKey (r : List (String × α)) (k : String) (v : α) : List (String × α) :=
  if r.any (fun p => decide (p.1 = k)) then
    r.map (fun p => if p.1 = k then (k, v) else p)
  else r ++ [(k, v)]

/-- The keys of a record, in insertion order. -/
def keys (r : List (String × α)) : List String := r.map Prod.fst

/-- JS property read `record[k]`, with an explicit default for the (never
exercised) absent-key case. -/
def getVal (r : List (String × α)) (k : String) (d : α) : α :=
  match r with
  | [] => d
  | p :: t => if p.1 = k then p.2 else getVal t k d

/-- Whether the record has a binding for `k`. -/
def hasKey (r : List (String × α)) (k : String) : Bool :=
  r.any (fun p => decide (p.1 = k))

/-- The `properties.forEach` loop of `generateRecord`: one rule-table value
per field, stored under the field's name. -/
def baseRecord (props : List FieldSpec) : List (String × Gen) :=
  props.foldl (fun r p => setKey r p.name (generateField p)) []

/-- p0's `generateRecord` (lines 93-110): the rule-table loop followed by the
primary-key override on the first `primaryKey` field, keyed by its declared
type: `number` draws `faker.datatype.number({min 10, max 10^18})`, `uuid` or
`string` draw `uuidv4()`, anything else is left untouched. -/
def generateRecord (props : List FieldSpec) : List (String × Gen) :=
  match props.find? (fun p => p.primaryKey) with
  | none => baseRecord props
  | some pk =>
    if pk.type = "number" then
      setKey (baseRecord props) pk.name (.numberInRange 10 1000000000000000000)
    else if pk.type = "uuid" ∨ pk.type = "string" then
      setKey (baseRecord props) pk.name .uuidV4
    else baseRecord props

/-- The `properties.forEach` loop of index's `generateRecord`. -/
def baseRecordIndex (props : List FieldSpec) : List (String × Gen) :=
  props.foldl (fun r p => setKey r p.name (generateFieldIndex p)) []

/-- index's `generateRecord` (src/index.js lines 57-74); same structure as
p0's, over index's rule table. -/
def generateRecordIndex (props : List FieldSpec) : List (String × Gen) :=
  match props.find? (fun p => p.primaryKey) with
  | none => baseRecordIndex props
  | some pk =>
    if pk.type = "number" then
      setKey (baseRecordIndex props) pk.name (.numberInRange 10 1000000000000000000)
    else if pk.type = "uuid" ∨ pk.type = "string" then
      setKey (baseRecordIndex props) pk.name .uuidV4
    else baseRecordIndex props

/-! ## Values and evaluation of generators

The faker and uuid libraries are external; they are modelled by their
documented contracts, with all randomness drawn from an explicit oracle
(`rnd` for numeric draws, `rs` for opaque generated text). -/

/-- A JS value that can end up in a record: a string, an integer number, a
boolean, or a `Date` object (carried as the text it stringifies to). -/
inductive Value where
  | str (s : String)
  | int (n : Int)
  | bool (b : Bool)
  | date (s : String)
deriving DecidableEq

/-- The fixed education levels of p0 (lines 12-20). -/
def educationLevels : List String :=
  ["High School", "Associate Degree", "Bachelor's Degree", "Master's Degree",
   "Doctorate", "Ph D", "Professional Certification"]

/-- One hexadecimal digit character (lowercase), from `n % 16`. -/
def hexChar (n : Nat) : Char :=
  if n % 16 < 10 then Char.ofNat (48 + n % 16) else Char.ofNat (97 + (n % 16 - 10))

/-- Model of a random RFC 4122 version-4 UUID in its textual 8-4-4-4-12 form
(`faker.string.uuid()` and the uuid library's `v4()` both produce this shape):
30 random hex digits around the fixed version digit `4` and a variant digit
in `8..b`, all derived from the oracle draw `r`. -/
def uuidStringOf (r : Nat) : String :=
  let nib := fun i : Nat => hexChar (r / 16 ^ i)
  String.mk
    [nib 0, nib 1, nib 2, nib 3, nib 4, nib 5, nib 6, nib 7, '-',
     nib 8, nib 9, nib 10, nib 11, '-',
     '4', nib 12, nib 13, nib 14, '-',
     hexChar (8 + (r / 16 ^ 30) % 4), nib 15, nib 16, nib 17, '-',
     nib 18, nib 19, nib 20, nib 21, nib 22, nib 23, nib 24, nib 25,
     nib 26, nib 27, nib 28, nib 29]

/-- A lowercase hexadecimal digit character. -/
def isHexDigitChar (c : Char) : Bool := c.isDigit || ('a' ≤ c && c ≤ 'f')

/-- The textual shape of an RFC 4122 version-4 UUID: five dash-separated
hex-digit groups of sizes 8-4-4-4-12, the third group starting with `4` and
the fourth with one of `8`, `9`, `a`, `b`. -/
def isUuidV4 (s : String) : Bool :=
  match s.toList with
  | c0 :: c1 :: c2 :: c3 :: c4 :: c5 :: c6 :: c7 :: '-' ::
    c8 :: c9 :: c10 :: c11 :: '-' ::
    '4' :: c12 :: c13 :: c14 :: '-' ::
    cv :: c15 :: c16 :: c17 :: '-' ::
    c18 :: c19 :: c20 :: c21 :: c22 :: c23 :: c24 :: c25 :: c26 :: c27 ::
    c28 :: c29 :: [] =>
      ([c0, c1, c2, c3, c4, c5, c6, c7, c8, c9, c10, c11, c12, c13, c14,
        c15, c16, c17, c18, c19, c20, c21, c22, c23, c24, c25, c26, c27,
        c28, c29].all isHexDigitChar) &&
      (cv == '8' || cv == '9' || cv == 'a' || cv == 'b')
  | _ => false

/-- Evaluate the generator selected for the field at position `i` of a record.
`rnd i` is the numeric random draw for that position and `rs i` the opaque
random text produced by a faker text generator.  Bounded numeric contracts
(`faker.datatype.number({min,max})`, `faker.number.int({min 18, max 80})`,
`Math.floor(Math.random()*7)`) are modelled as `min + draw % (max - min + 1)`,
matching the library guarantee that the result is an integer in `[min, max]`. -/
def evalGen (rnd : Nat → Nat) (rs : Nat → String) (i : Nat) : Gen → Value
  | .fullName => .str (rs i)
  | .internetEmail => .str (rs i)
  | .educationLevel => .str (educationLevels.getD (rnd i % 7) "")
  | .phoneNumber => .str (rs i)
  | .sexType => .str (rs i)
  | .city => .str (rs i)
  | .state => .str (rs i)
  | .streetAddress => .str (rs i)
  | .country => .str (rs i)
  | .zipCode => .str (rs i)
  | .companyName => .str (rs i)
  | .birthdate => .date (rs i)
  | .fakerUuid => .str (uuidStringOf (rnd i))
  | .financeAmount => .str (rs i)
  | .ageInt => .int (18 + (rnd i % 63 : Nat))
  | .loremSentences => .str (rs i)
  | .internetUrl => .str (rs i)
  | .imageAvatar => .str (rs i)
  | .loremWord => .str (rs i)
  | .datatypeNumber => .int (rnd i)
  | .datatypeBoolean => .bool (decide (rnd i % 2 = 1))
  | .datePastISO => .str (rs i)
  | .numberInRange lo hi => .int ((lo + rnd i % (hi - lo + 1) : Nat))
  | .uuidV4 => .str (uuidStringOf (rnd i))
  | .emptyString => .str ""

/-- Evaluate a record of generators, giving each position its own fresh
random draw, starting at position `i`. -/
def evalRecordFrom (rnd : Nat → Nat) (rs : Nat → String) :
    Nat → List (String × Gen) → List (String × Value)
  | _, [] => []
  | i, (k, g) :: t => (k, evalGen rnd rs i g) :: evalRecordFrom rnd rs (i + 1) t

/-- Evaluate a whole record of generators. -/
def evalRecord (rnd : Nat → Nat) (rs : Nat → String)
    (rec : List (String × Gen)) : List (String × Value) :=
  evalRecordFrom rnd rs 0 rec

/-- One fully synthesized record (p0's `generateRecord` followed by the
random draws). -/
def recordValues (props : List FieldSpec) (rnd : Nat → Nat) (rs : Nat → String) :
    List (String × Value) :=
  evalRecord rnd rs (generateRecord props)

/-! ## Record-count estimator (p0 lines 27-30) and per-format constant
(p0 lines 279-289) -/

/-- The source's `estimateRecordCount`: `Math.floor(fileSizeMB*1024*1024 /
averageRecordSize)`; JS numbers are modelled as rationals.  (In the source
`averageRecordSize` defaults to 200; every call site passes it explicitly.) -/
def estimateRecordCount (fileSizeMB : ℚ) (averageRecordSize : ℚ) : ℤ :=
  let bytes := fileSizeMB * 1024 * 1024
  Rat.floor (bytes / averageRecordSize)

/-- The `switch (fileType)` that picks `averageRecordSize` in the request
handler: 100 for csv, 300 for xml, 200 otherwise (json included). -/
def averageRecordSizeFor (fileType : String) : ℚ :=
  if fileType = "csv" then 100
  else if fileType = "xml" then 300
  else 200

/-! ## Wire output

Encoded output is modelled as `List Char`.  `sepConcat` is JS
`Array.prototype.join(sep)`. -/

/-- JS `array.join(sep)`: concatenation with `sep` between elements. -/
def sepConcat (sep : List Char) : List (List Char) → List Char
  | [] => []
  | [x] => x
  | x :: y :: t => x ++ sep ++ sepConcat sep (y :: t)

/-! ### CSV encoder (p0 `streamCSV`, lines 113-162) -/

/-- JS `value.replace(/"/g, '""')`: double every double-quote character. -/
def doubleQuotes : List Char → List Char
  | [] => []
  | c :: t => if c = '"' then '"' :: '"' :: doubleQuotes t else c :: doubleQuotes t

/-- A character matched by the quoting test `/("|,|\n)/`. -/
def isCsvSpecial (c : Char) : Bool := c == '"' || c == ',' || c == '\n'

/-- Rendering of one field value on a CSV line.  Only strings are escaped
(`typeof value === 'string'`): quotes are doubled, then the value is wrapped
in quotes if it contains a quote, comma or newline; numbers, booleans and
Date objects are stringified by `join` unescaped. -/
def csvField : Value → List Char
  | .str s =>
    let e := doubleQuotes s.toList
    if e.any isCsvSpecial then '"' :: e ++ ['"'] else e
  | .int n => (toString n).toList
  | .bool b => (if b then "true" else "false").toList
  | .date s => s.toList

/-- One CSV record line (without the trailing newline): the rendered field
values in schema order, joined by commas. -/
def csvLine (props : List FieldSpec) (rec : List (String × Value)) : List Char :=
  sepConcat [','] (props.map fun p => csvField (getVal rec p.name (.str "")))

/-- The CSV header (without the trailing newline): field names joined by
commas. -/
def csvHeader (props : List FieldSpec) : List Char :=
  sepConcat [','] (props.map fun p => p.name.toList)

/-- The record lines written by `streamCSV`'s generate loop starting at
record index `n`, with `rem = count - n` records still to write (the loop
guard `sentRecords < recordCount` expressed as remaining fuel);
`rnd i`/`rs i` are the random draws of record `i`. -/
def csvBodyAux (props : List FieldSpec)
    (rnd : Nat → Nat → Nat) (rs : Nat → Nat → String) : Nat → Nat → List Char
  | 0, _ => []
  | rem + 1, n =>
    csvLine props (recordValues props (rnd n) (rs n)) ++ '\n' ::
      csvBodyAux props rnd rs rem (n + 1)

/-- The record lines written by `streamCSV`'s generate loop, from record
index `n` up to `count`. -/
def csvBody (props : List FieldSpec) (count : Nat)
    (rnd : Nat → Nat → Nat) (rs : Nat → Nat → String) (n : Nat) : List Char :=
  csvBodyAux props rnd rs (count - n) n

/-- The complete body written by `streamCSV`: header line then all record
lines.  (Backpressure suspensions change the timing of writes, not the
bytes; see the flow-control model below.) -/
def streamCSVout (props : List FieldSpec) (count : Nat)
    (rnd : Nat → Nat → Nat) (rs : Nat → Nat → String) : List Char :=
  csvHeader props ++ '\n' :: csvBody props count rnd rs 0

/-! ### JSON encoder (p0 `streamJSON`, lines 165-193) -/

/-- JSON string-escaping of one character (model of what `JSON.stringify`
does inside string literals). -/
def jsonEscapeChar (c : Char) : List Char :=
  if c = '"' then ['\\', '"']
  else if c = '\\' then ['\\', '\\']
  else if c = '\n' then ['\\', 'n']
  else if c = '\r' then ['\\', 'r']
  else if c = '\t' then ['\\', 't']
  else [c]

/-- JSON string-escaping of a whole string body. -/
def jsonEscape : List Char → List Char
  | [] => []
  | c :: t => jsonEscapeChar c ++ jsonEscape t

/-- A JSON document, used to state that output parses as well-formed JSON. -/
inductive Json where
  | str (s : String)
  | num (n : Int)
  | bool (b : Bool)
  | arr (xs : List Json)
  | obj (fs : List (String × Json))
deriving Inhabited

/-- The canonical compact serialization of a JSON document (no whitespace),
exactly the form `JSON.stringify` emits. -/
def serializeJson : Json → List Char
  | .str s => '"' :: jsonEscape s.toList ++ ['"']
  | .num n => (toString n).toList
  | .bool b => (if b then "true" else "false").toList
  | .arr xs => '[' :: sepConcat [','] (xs.attach.map fun x => serializeJson x.1) ++ [']']
  | .obj fs => '{' :: sepConcat [','] (fs.attach.map fun f =>
      '"' :: jsonEscape f.1.1.toList ++ '"' :: ':' :: serializeJson f.1.2) ++ ['}']
decreasing_by
  · have h := List.sizeOf_lt_of_mem x.2
    simp only [Json.arr.sizeOf_spec]
    omega
  · obtain ⟨⟨k, v⟩, hm⟩ := f
    have h := List.sizeOf_lt_of_mem hm
    simp only [Prod.mk.sizeOf_spec] at h
    simp only [Json.obj.sizeOf_spec]
    omega

/-- A record value as a JSON value: strings and Dates stringify to JSON
strings, numbers to numbers, booleans to booleans. -/
def valueToJson : Value → Json
  | .str s => .str s
  | .int n => .num n
  | .bool b => .bool b
  | .date s => .str s

/-- A synthesized record as a JSON object keyed by field name. -/
def recordJson (rec : List (String × Value)) : Json :=
  .obj (rec.map fun kv => (kv.1, valueToJson kv.2))

/-- The JSON text of one record value (a scalar, so non-recursive). -/
def valueToJsonChars : Value → List Char
  | .str s => '"' :: jsonEscape s.toList ++ ['"']
  | .int n => (toString n).toList
  | .bool b => (if b then "true" else "false").toList
  | .date s => '"' :: jsonEscape s.toList ++ ['"']

/-- Model of `JSON.stringify(record)` for a flat record object: a compact
object literal, keys in insertion order (`serializeJson (recordJson rec)`,
see `stringifyRecord_eq_serialize`). -/
def stringifyRecord (rec : List (String × Value)) : List Char :=
  '{' :: sepConcat [','] (rec.map fun kv =>
    '"' :: jsonEscape kv.1.toList ++ '"' :: ':' :: valueToJsonChars kv.2) ++ ['}']

/-- The bytes written by `streamJSON`'s generate loop from record index `n`
with `rem = count - n` records remaining: each stringified record, followed
by a comma whenever `sentRecords < recordCount` still holds after the
write. -/
def jsonBodyAux (props : List FieldSpec) (count : Nat)
    (rnd : Nat → Nat → Nat) (rs : Nat → Nat → String) : Nat → Nat → List Char
  | 0, _ => []
  | rem + 1, n =>
    (stringifyRecord (recordValues props (rnd n) (rs n)) ++
      (if n + 1 < count then [','] else [])) ++ jsonBodyAux props count rnd rs rem (n + 1)

/-- The bytes written by `streamJSON`'s generate loop from record index `n`. -/
def jsonBody (props : List FieldSpec) (count : Nat)
    (rnd : Nat → Nat → Nat) (rs : Nat → Nat → String) (n : Nat) : List Char :=
  jsonBodyAux props count rnd rs (count - n) n

/-- The complete body written by `streamJSON`: `[`, the records, `]`. -/
def streamJSONout (props : List FieldSpec) (count : Nat)
    (rnd : Nat → Nat → Nat) (rs : Nat → Nat → String) : List Char :=
  '[' :: jsonBody props count rnd rs 0 ++ [']']

/-! ### XML encoder (p0 `streamXML`, lines 195-228) -/

/-- The text a record value contributes inside an XML element (template
interpolation, completely unescaped). -/
def xmlText : Value → List Char
  | .str s => s.toList
  | .int n => (toString n).toList
  | .bool b => (if b then "true" else "false").toList
  | .date s => s.toList

/-- One `<record>` element: one child element per field, named after the
field. -/
def xmlElement (props : List FieldSpec) (rec : List (String × Value)) : List Char :=
  "  <record>\n".toList ++
    (props.map fun p =>
      "    <".toList ++ p.name.toList ++ ['>'] ++
        xmlText (getVal rec p.name (.str "")) ++
        "</".toList ++ p.name.toList ++ ['>', '\n']).flatten ++
  "  </record>\n".toList

/-- The record elements written by `streamXML`'s generate loop from record
index `n`, with `rem = count - n` remaining. -/
def xmlBodyAux (props : List FieldSpec)
    (rnd : Nat → Nat → Nat) (rs : Nat → Nat → String) : Nat → Nat → List Char
  | 0, _ => []
  | rem + 1, n =>
    xmlElement props (recordValues props (rnd n) (rs n)) ++
      xmlBodyAux props rnd rs rem (n + 1)

/-- The record elements written by `streamXML`'s generate loop. -/
def xmlBody (props : List FieldSpec) (count : Nat)
    (rnd : Nat → Nat → Nat) (rs : Nat → Nat → String) (n : Nat) : List Char :=
  xmlBodyAux props rnd rs (count - n) n

/-- The complete body written by `streamXML`. -/
def streamXMLout (props : List FieldSpec) (count : Nat)
    (rnd : Nat → Nat → Nat) (rs : Nat → Nat → String) : List Char :=
  "<?xml version=\"1.0\" encoding=\"UTF-8\"?>\n<records>\n".toList ++
    xmlBody props count rnd rs 0 ++ "</records>".toList

/-! ## Request handler (p0 `app.post('/api/generate')`, lines 230-310)

The JSON request body is modelled with the dynamic cases the validator
distinguishes: `fileSize` is `none` when it is not a number (or is NaN),
`properties` is `none` when it is not an array. -/

/-- A request body for `/api/generate`. -/
structure Request where
  fileType : String
  fileSize : Option ℚ
  properties : Option (List FieldSpec)

/-- The eight allowed type tags. -/
def validTypes : List String :=
  ["string", "number", "boolean", "date", "email", "phone", "address", "uuid"]

/-- Model of JS `String.prototype.trim()`: leading and trailing whitespace
removed. -/
def trimString (s : String) : String :=
  String.mk (((s.toList.dropWhile Char.isWhitespace).reverse.dropWhile
    Char.isWhitespace).reverse)

/-- What the handler sends back: either a 400 JSON error (no streamed bytes)
or the attachment stream with its content type, filename and full body. -/
inductive Response where
  | badRequest (msg : String)
  | streamed (contentType : String) (filename : String) (body : List Char)
deriving DecidableEq

/-- The `/api/generate` handler: the validation chain, then the
per-format `averageRecordSize` switch, `estimateRecordCount`, and dispatch
to the format's streaming function. -/
def handle (req : Request) (rnd : Nat → Nat → Nat) (rs : Nat → Nat → String) :
    Response :=
  if ¬ (["json", "csv", "xml"].contains req.fileType) then
    .badRequest "Invalid fileType. Allowed types: json, csv, xml."
  else match req.fileSize with
  | none => .badRequest "fileSize must be a number between 1 and 1000 MB."
  | some fileSize =>
    if fileSize < 1 ∨ fileSize > 1000 then
      .badRequest "fileSize must be a number between 1 and 1000 MB."
    else match req.properties with
    | none => .badRequest "properties must be a non-empty array."
    | some props =>
      if props.length = 0 then .badRequest "properties must be a non-empty array."
      else if (props.filter fun p => p.primaryKey).length > 1 then
        .badRequest "Only one property can be marked as primaryKey."
      else if (props.filter fun p => p.primaryKey).length = 0 then
        .badRequest "At least one property must be marked as primaryKey."
      else if props.any (fun p => trimString p.name = "" || !(validTypes.contains p.type)) then
        .badRequest "Each property must have a valid name and type."
      else
        let averageRecordSize := averageRecordSizeFor req.fileType
        let estimatedRecords := (estimateRecordCount fileSize averageRecordSize).toNat
        if req.fileType = "json" then
          .streamed "application/json" "generated_file.json"
            (streamJSONout props estimatedRecords rnd rs)
        else if req.fileType = "csv" then
          .streamed "text/csv" "generated_file.csv"
            (streamCSVout props estimatedRecords rnd rs)
        else if req.fileType = "xml" then
          .streamed "application/xml" "generated_file.xml"
            (streamXMLout props estimatedRecords rnd rs)
        else .badRequest "Unsupported fileType."

/-! ## Flow control (the `generate` loop shared by `streamCSV`,
`streamJSON` and `streamXML`)

The loop is
`while (sentRecords < recordCount && ok) { synthesize; sentRecords += 1;
ok = res.write(...) }` followed by `res.once('drain', generate)` when
`sentRecords < recordCount`, else `res.end()`.  It is modelled as an event
trace.  `w k` is the boolean the sink returns from the `k`-th record write
(`false` = backpressure); `d` bounds how many drain signals the sink will
ever deliver. -/

/-- An observable event of one generation session. -/
inductive Ev where
  | synth (i : Nat)      -- generateRecord is invoked for the i-th record
  | writeOk (i : Nat)    -- res.write of record i returned true
  | writeFull (i : Nat)  -- res.write of record i returned false (backpressure)
  | drain                -- the sink delivered its ready signal
  | done                 -- res.end() was called
deriving DecidableEq

/-- The events of one activation of `generate` starting with
`sentRecords = n` and `rem = count - n` records still to emit (the loop
guard `sentRecords < recordCount` expressed as remaining fuel): records are
synthesized and written one by one until the count is reached or a write
signals backpressure. -/
def burstTraceAux (w : Nat → Bool) : Nat → Nat → List Ev
  | 0, _ => []
  | rem + 1, n =>
    .synth (n + 1) ::
      (if w (n + 1) then .writeOk (n + 1) :: burstTraceAux w rem (n + 1)
       else [.writeFull (n + 1)])

/-- The events of one activation of `generate` starting with
`sentRecords = n`. -/
def burstTrace (count : Nat) (w : Nat → Bool) (n : Nat) : List Ev :=
  burstTraceAux w (count - n) n

/-- The value of `sentRecords` when the activation started at `n` returns,
computed with `rem = count - n` fuel. -/
def burstEndAux (w : Nat → Bool) : Nat → Nat → Nat
  | 0, n => n
  | rem + 1, n => if w (n + 1) then burstEndAux w rem (n + 1) else n + 1

/-- The value of `sentRecords` when the activation started at `n` returns. -/
def burstEnd (count : Nat) (w : Nat → Bool) (n : Nat) : Nat :=
  burstEndAux w (count - n) n

/-- The full session trace from `sentRecords = n` when the sink will deliver
at most `d` further drain signals: each stalled activation is parked on
`res.once('drain', generate)`; a completed activation ends the response. -/
def sessionTrace (count : Nat) (w : Nat → Bool) : Nat → Nat → List Ev
  | d, n =>
    if burstEnd count w n < count then
      match d with
      | 0 => burstTrace count w n
      | d' + 1 =>
        burstTrace count w n ++ .drain :: sessionTrace count w d' (burstEnd count w n)
    else burstTrace count w n ++ [.done]

/-- The record indices synthesized along a trace, in order. -/
def synthsOf (t : List Ev) : List Nat :=
  t.filterMap fun e => match e with | .synth i => some i | _ => none

/-- The value of `sentRecords` at the end of a whole session (mirrors the
recursion of `sessionTrace`). -/
def sessionEnd (count : Nat) (w : Nat → Bool) : Nat → Nat → Nat
  | d, n =>
    if burstEnd count w n < count then
      match d with
      | 0 => burstEnd count w n
      | d' + 1 => sessionEnd count w d' (burstEnd count w n)
    else burstEnd count w n

/-! ## General lemmas -/

/-- The computable `Rat.floor` agrees with the floor of the `FloorRing` instance. -/
theorem rat_floor_eq_int_floor (q : ℚ) : Rat.floor q = ⌊q⌋ := by
  rw [Rat.floor_def']
  exact (Rat.floor_def).symm

/-! ## Claim C2: the record-count estimator -/

/-- C2: the estimator is the pure function
`estimate(targetSizeMB, avg) = floor(targetSizeMB * 1024 * 1024 / avg)`;
the per-format constant passed to it is 100 for csv, 300 for xml and 200
for json and any other (default) tag; and `estimate(1,100) = 10485`,
`estimate(1,200) = 5242`, `estimate(1,300) = 3495`. -/
theorem estimator_spec :
    (∀ mb avg : ℚ, estimateRecordCount mb avg = ⌊mb * 1024 * 1024 / avg⌋)
    ∧ averageRecordSizeFor "csv" = 100
    ∧ averageRecordSizeFor "xml" = 300
    ∧ averageRecordSizeFor "json" = 200
    ∧ (∀ ft : String, ft ≠ "csv" → ft ≠ "xml" → averageRecordSizeFor ft = 200)
    ∧ estimateRecordCount 1 100 = 10485
    ∧ estimateRecordCount 1 200 = 5242
    ∧ estimateRecordCount 1 300 = 3495 := by
  have hfl : ∀ mb avg : ℚ, estimateRecordCount mb avg = ⌊mb * 1024 * 1024 / avg⌋ :=
    fun mb avg => rat_floor_eq_int_floor _
  refine ⟨hfl, rfl, rfl, rfl, ?_, ?_, ?_, ?_⟩
  · intro ft h1 h2
    simp [averageRecordSizeFor, h1, h2]
  · rw [hfl]
    have h : ((1 : ℚ) * 1024 * 1024 / 100) = ((1048576 : ℤ) : ℚ) / ((100 : ℕ) : ℚ) := by
      norm_num
    rw [h, Rat.floor_intCast_div_natCast]
    decide
  · rw [hfl]
    have h : ((1 : ℚ) * 1024 * 1024 / 200) = ((1048576 : ℤ) : ℚ) / ((200 : ℕ) : ℚ) := by
      norm_num
    rw [h, Rat.floor_intCast_div_natCast]
    decide
  · rw [hfl]
    have h : ((1 : ℚ) * 1024 * 1024 / 300) = ((1048576 : ℤ) : ℚ) / ((300 : ℕ) : ℚ) := by
      norm_num
    rw [h, Rat.floor_intCast_div_natCast]
    decide

/-- Witness for `estimator_spec`: the default branch of the constant at a
concrete non-csv, non-xml tag. -/
theorem estimator_spec_witness : averageRecordSizeFor "txt" = 200 :=
  estimator_spec.2.2.2.2.1 "txt" (by decide) (by decide)

/-! ## Claim C4: rule-selection tiers (code-bug exhibit)

The claim states that every name pattern, education included, is matched as
a whole word.  The source's education regex `/\education\b/i` has no left
word boundary (`\e` is an identity escape for `e`), contradicting the
source's own comment "Accurate regex with word boundaries": a name
containing `education` as a proper suffix still selects the education
generator. -/

/-- C4 (failing input): on the field name `reeducation` with declared type
`string`, p0's rule table selects the education-level generator even though
`education` does not occur in it as a whole word — whole-word matching would
have fallen through to the type tier (`faker.lorem.word()`). -/
theorem education_pattern_not_whole_word :
    generateField ⟨"reeducation", "string", false⟩ = Gen.educationLevel
    ∧ testWord "education" "reeducation" = false
    ∧ testWordRight "education" "reeducation" = true
    ∧ typeSwitch "string" = Gen.loremWord := by decide

/-! ## Claim C9: equivalence of the two `generateField` variants -/

/-- C9 (counterexample): the two source variants of the field-synthesis
function select different generators on the field name `city` with declared
type `string`: p0 selects `faker.location.city()`, index selects
`faker.lorem.word()`. -/
theorem generateField_variants_differ :
    generateField ⟨"city", "string", false⟩ = Gen.city
    ∧ generateFieldIndex ⟨"city", "string", false⟩ = Gen.loremWord
    ∧ generateField ⟨"city", "string", false⟩ ≠
        generateFieldIndex ⟨"city", "string", false⟩ := by decide

/-- C9 (amended): the two variants agree exactly on the type-fallback tier.
For every field whose lowercased name fires no p0 name pattern, both select
the same generator when the declared type is not `uuid`; when it is `uuid`,
p0 selects `faker.string.uuid()` and index the uuid library's `v4()` (both
random UUID-v4 generators).  On p0's name tier, index agrees only on its
three special cases (name/string, email/email, phone/phone). -/
theorem generateField_variants_agree :
    ∀ (nm ty : String) (pk pk' : Bool),
      (nameTier (lowerString nm) = none →
        (ty ≠ "uuid" → generateField ⟨nm, ty, pk⟩ = generateFieldIndex ⟨nm, ty, pk'⟩)
        ∧ (ty = "uuid" → generateField ⟨nm, ty, pk⟩ = Gen.fakerUuid
            ∧ generateFieldIndex ⟨nm, ty, pk'⟩ = Gen.uuidV4))
      ∧ generateField ⟨"name", "string", pk⟩ = Gen.fullName
      ∧ generateFieldIndex ⟨"name", "string", pk'⟩ = Gen.fullName
      ∧ generateField ⟨"email", "email", pk⟩ = Gen.internetEmail
      ∧ generateFieldIndex ⟨"email", "email", pk'⟩ = Gen.internetEmail
      ∧ generateField ⟨"phone", "phone", pk⟩ = Gen.phoneNumber
      ∧ generateFieldIndex ⟨"phone", "phone", pk'⟩ = Gen.phoneNumber := by
  intro nm ty pk pk'
  refine ⟨?_, rfl, rfl, rfl, rfl, rfl, rfl⟩
  intro h
  have hn : lowerString nm ≠ "name" := by
    intro he
    rw [he] at h
    exact absurd h (by decide)
  have he : lowerString nm ≠ "email" := by
    intro he
    rw [he] at h
    exact absurd h (by decide)
  have hp : lowerString nm ≠ "phone" := by
    intro he
    rw [he] at h
    exact absurd h (by decide)
  have hgf : generateField ⟨nm, ty, pk⟩ = typeSwitch ty := by
    simp only [generateField, h]
  have hgi : generateFieldIndex ⟨nm, ty, pk'⟩ = typeSwitchIndex ty := by
    simp only [generateFieldIndex]
    rw [if_neg fun hc => hn hc.1, if_neg fun hc => he hc.1, if_neg fun hc => hp hc.1]
  constructor
  · intro hty
    rw [hgf, hgi]
    unfold typeSwitch typeSwitchIndex
    split_ifs <;> rfl
  · intro hty
    subst hty
    rw [hgf, hgi]
    constructor <;> rfl

/-- Witness for `generateField_variants_agree`: at the concrete field name
`xyz` (no name pattern fires) both variants select `faker.lorem.word()` for
type `string`, and on type `uuid` they select the two UUID-v4 generators. -/
theorem generateField_variants_agree_witness :
    generateField ⟨"xyz", "string", false⟩ = generateFieldIndex ⟨"xyz", "string", true⟩
    ∧ generateField ⟨"xyz", "uuid", false⟩ = Gen.fakerUuid
    ∧ generateFieldIndex ⟨"xyz", "uuid", true⟩ = Gen.uuidV4 :=
  ⟨((generateField_variants_agree "xyz" "string" false true).1 (by decide)).1 (by decide),
   ((generateField_variants_agree "xyz" "uuid" false true).1 (by decide)).2 (by decide)⟩

/-! ## Association-list (JS object) lemmas -/

theorem keys_map_overwrite (r : List (String × α)) (k : String) (v : α) :
    keys (r.map fun p => if p.1 = k then (k, v) else p) = keys r := by
  induction r with
  | nil => rfl
  | cons a t ih =>
    by_cases h : a.1 = k
    · simp [keys, h] at ih ⊢
      exact ih
    · simp [keys, h] at ih ⊢
      exact ih

theorem hasKey_iff_mem (r : List (String × α)) (k : String) :
    hasKey r k = true ↔ k ∈ keys r := by
  unfold hasKey keys
  simp [List.any_eq_true, List.mem_map]

theorem keys_setKey (r : List (String × α)) (k : String) (v : α) :
    keys (setKey r k v) =
      if hasKey r k then keys r else keys r ++ [k] := by
  unfold setKey hasKey
  split_ifs with h
  · exact keys_map_overwrite r k v
  · simp [keys]

theorem mem_keys_setKey (r : List (String × α)) (k k' : String) (v : α) :
    k' ∈ keys (setKey r k v) ↔ k' ∈ keys r ∨ k' = k := by
  rw [keys_setKey]
  split_ifs with h
  · constructor
    · exact Or.inl
    · rintro (hm | rfl)
      · exact hm
      · exact (hasKey_iff_mem r k').mp h
  · simp

theorem nodup_keys_setKey (r : List (String × α)) (k : String) (v : α)
    (h : (keys r).Nodup) : (keys (setKey r k v)).Nodup := by
  rw [keys_setKey]
  split_ifs with hk
  · exact h
  · have hnot : k ∉ keys r := fun hm =>
      by simp [(hasKey_iff_mem r k).mpr hm] at hk
    simp [List.nodup_append, h]
    exact hnot

theorem getVal_map_overwrite (k : String) (v d : α) :
    ∀ r : List (String × α), hasKey r k = true →
      getVal (r.map fun p => if p.1 = k then (k, v) else p) k d = v := by
  intro r
  induction r with
  | nil => intro h; simp [hasKey] at h
  | cons a t ih =>
    intro h
    by_cases ha : a.1 = k
    · simp [ha, getVal]
    · have ht : hasKey t k = true := by
        simpa [hasKey, ha] using h
      simpa [ha, getVal] using ih ht

theorem getVal_append_single (k : String) (v d : α) :
    ∀ r : List (String × α), hasKey r k = false →
      getVal (r ++ [(k, v)]) k d = v := by
  intro r
  induction r with
  | nil => intro _; simp [getVal]
  | cons a t ih =>
    intro h
    have ha : ¬ (a.1 = k) := by
      intro he
      simp [hasKey, he] at h
    have ht : hasKey t k = false := by
      simpa [hasKey, ha] using h
    simpa [getVal, ha] using ih ht

theorem getVal_setKey_self (r : List (String × α)) (k : String) (v d : α) :
    getVal (setKey r k v) k d = v := by
  unfold setKey
  split_ifs with h
  · exact getVal_map_overwrite k v d r h
  · refine getVal_append_single k v d r ?_
    unfold hasKey
    cases hx : r.any fun p => decide (p.1 = k)
    · rfl
    · exact absurd hx h

theorem getVal_map_overwrite_ne (k k' : String) (v d : α) (hne : k' ≠ k) :
    ∀ r : List (String × α),
      getVal (r.map fun p => if p.1 = k then (k, v) else p) k' d = getVal r k' d := by
  intro r
  induction r with
  | nil => rfl
  | cons a t ih =>
    by_cases ha : a.1 = k
    · have h1 : ¬ ((k, v).1 = k') := fun he => hne he.symm
      have h2 : ¬ (a.1 = k') := by
        intro he
        apply hne
        rw [← he, ha]
      simp only [List.map_cons, ha, if_true, getVal, if_pos, if_neg h1, if_neg h2, ih]
    · simp only [List.map_cons, ha, if_false, getVal, ite_false, ih]

theorem getVal_append_single_ne (k k' : String) (v d : α) (hne : k' ≠ k) :
    ∀ r : List (String × α), getVal (r ++ [(k, v)]) k' d = getVal r k' d := by
  intro r
  induction r with
  | nil =>
    simp only [List.nil_append, getVal]
    rw [if_neg fun he => hne he.symm]
  | cons a t ih =>
    simp only [List.cons_append, getVal, List.append_eq, ih]

theorem getVal_setKey_ne (r : List (String × α)) (k k' : String) (v d : α)
    (hne : k' ≠ k) : getVal (setKey r k v) k' d = getVal r k' d := by
  unfold setKey
  split_ifs with h
  · exact getVal_map_overwrite_ne k k' v d hne r
  · exact getVal_append_single_ne k k' v d hne r

theorem keys_evalRecordFrom (rnd : Nat → Nat) (rs : Nat → String) :
    ∀ (rec : List (String × Gen)) (i : Nat),
      keys (evalRecordFrom rnd rs i rec) = keys rec := by
  intro rec
  induction rec with
  | nil => intro i; rfl
  | cons a t ih =>
    intro i
    cases a with
    | mk k g =>
      have h := ih (i + 1)
      simp only [keys] at h ⊢
      simp [evalRecordFrom, h]

theorem getVal_evalRecordFrom (rnd : Nat → Nat) (rs : Nat → String)
    (k : String) (dg : Gen) (dv : Value) :
    ∀ (rec : List (String × Gen)) (i : Nat), hasKey rec k = true →
      ∃ j, getVal (evalRecordFrom rnd rs i rec) k dv =
        evalGen rnd rs j (getVal rec k dg) := by
  intro rec
  induction rec with
  | nil => intro i h; simp [hasKey] at h
  | cons a t ih =>
    intro i h
    cases a with
    | mk k0 g =>
      by_cases hk : k0 = k
      · exact ⟨i, by simp [evalRecordFrom, getVal, hk]⟩
      · have ht : hasKey t k = true := by simpa [hasKey, hk] using h
        obtain ⟨j, hj⟩ := ih (i + 1) ht
        exact ⟨j, by simpa [evalRecordFrom, getVal, hk] using hj⟩

/-! ## Keys of the synthesized record -/

theorem mem_keys_foldl_setKey (gf : FieldSpec → Gen) :
    ∀ (props : List FieldSpec) (r : List (String × Gen)) (k : String),
      k ∈ keys (props.foldl (fun r p => setKey r p.name (gf p)) r) ↔
        k ∈ keys r ∨ k ∈ props.map FieldSpec.name := by
  intro props
  induction props with
  | nil => intro r k; simp
  | cons p t ih =>
    intro r k
    rw [List.foldl_cons, ih]
    rw [mem_keys_setKey]
    simp
    tauto

theorem nodup_keys_foldl_setKey (gf : FieldSpec → Gen) :
    ∀ (props : List FieldSpec) (r : List (String × Gen)),
      (keys r).Nodup →
      (keys (props.foldl (fun r p => setKey r p.name (gf p)) r)).Nodup := by
  intro props
  induction props with
  | nil => intro r h; exact h
  | cons p t ih =>
    intro r h
    rw [List.foldl_cons]
    exact ih _ (nodup_keys_setKey r p.name (gf p) h)

theorem mem_keys_baseRecord (props : List FieldSpec) (k : String) :
    k ∈ keys (baseRecord props) ↔ k ∈ props.map FieldSpec.name := by
  have h := mem_keys_foldl_setKey generateField props [] k
  simpa [baseRecord, keys] using h

theorem nodup_keys_baseRecord (props : List FieldSpec) :
    (keys (baseRecord props)).Nodup :=
  nodup_keys_foldl_setKey generateField props [] (by simp [keys])

theorem generateRecord_of_find?_none (props : List FieldSpec)
    (hf : props.find? (fun p => p.primaryKey) = none) :
    generateRecord props = baseRecord props := by
  unfold generateRecord
  rw [hf]

theorem generateRecord_of_find?_some (props : List FieldSpec) (pk : FieldSpec)
    (hf : props.find? (fun p => p.primaryKey) = some pk) :
    generateRecord props =
      if pk.type = "number" then
        setKey (baseRecord props) pk.name (.numberInRange 10 1000000000000000000)
      else if pk.type = "uuid" ∨ pk.type = "string" then
        setKey (baseRecord props) pk.name .uuidV4
      else baseRecord props := by
  unfold generateRecord
  rw [hf]

theorem generateRecordIndex_of_find?_none (props : List FieldSpec)
    (hf : props.find? (fun p => p.primaryKey) = none) :
    generateRecordIndex props = baseRecordIndex props := by
  unfold generateRecordIndex
  rw [hf]

theorem mem_keys_generateRecord (props : List FieldSpec) (k : String) :
    k ∈ keys (generateRecord props) ↔ k ∈ props.map FieldSpec.name := by
  cases hf : props.find? (fun p => p.primaryKey) with
  | none =>
    rw [generateRecord_of_find?_none props hf]
    exact mem_keys_baseRecord props k
  | some pk =>
    have hpk : pk.name ∈ props.map FieldSpec.name :=
      List.mem_map_of_mem _ (List.mem_of_find?_eq_some hf)
    rw [generateRecord_of_find?_some props pk hf]
    split_ifs with h1 h2
    · rw [mem_keys_setKey, mem_keys_baseRecord]
      constructor
      · rintro (hm | rfl)
        · exact hm
        · exact hpk
      · exact Or.inl
    · rw [mem_keys_setKey, mem_keys_baseRecord]
      constructor
      · rintro (hm | rfl)
        · exact hm
        · exact hpk
      · exact Or.inl
    · exact mem_keys_baseRecord props k

theorem nodup_keys_generateRecord (props : List FieldSpec) :
    (keys (generateRecord props)).Nodup := by
  cases hf : props.find? (fun p => p.primaryKey) with
  | none =>
    rw [generateRecord_of_find?_none props hf]
    exact nodup_keys_baseRecord props
  | some pk =>
    rw [generateRecord_of_find?_some props pk hf]
    split_ifs with h1 h2
    · exact nodup_keys_setKey _ _ _ (nodup_keys_baseRecord props)
    · exact nodup_keys_setKey _ _ _ (nodup_keys_baseRecord props)
    · exact nodup_keys_baseRecord props

/-! ## UUID shape lemmas -/

theorem isHexDigitChar_hexChar (n : Nat) : isHexDigitChar (hexChar n) = true := by
  unfold hexChar
  have h : n % 16 < 16 := Nat.mod_lt n (by norm_num)
  generalize hm : n % 16 = m
  rw [hm] at h
  interval_cases m <;> decide

theorem variant_hexChar (k : Nat) :
    (hexChar (8 + k % 4) == '8' || hexChar (8 + k % 4) == '9' ||
     hexChar (8 + k % 4) == 'a' || hexChar (8 + k % 4) == 'b') = true := by
  unfold hexChar
  have h : k % 4 < 4 := Nat.mod_lt k (by norm_num)
  generalize hm : k % 4 = m
  rw [hm] at h
  interval_cases m <;> decide

theorem isUuidV4_uuidStringOf (r : Nat) : isUuidV4 (uuidStringOf r) = true := by
  show ([hexChar (r / 16 ^ 0), hexChar (r / 16 ^ 1), hexChar (r / 16 ^ 2),
      hexChar (r / 16 ^ 3), hexChar (r / 16 ^ 4), hexChar (r / 16 ^ 5),
      hexChar (r / 16 ^ 6), hexChar (r / 16 ^ 7), hexChar (r / 16 ^ 8),
      hexChar (r / 16 ^ 9), hexChar (r / 16 ^ 10), hexChar (r / 16 ^ 11),
      hexChar (r / 16 ^ 12), hexChar (r / 16 ^ 13), hexChar (r / 16 ^ 14),
      hexChar (r / 16 ^ 15), hexChar (r / 16 ^ 16), hexChar (r / 16 ^ 17),
      hexChar (r / 16 ^ 18), hexChar (r / 16 ^ 19), hexChar (r / 16 ^ 20),
      hexChar (r / 16 ^ 21), hexChar (r / 16 ^ 22), hexChar (r / 16 ^ 23),
      hexChar (r / 16 ^ 24), hexChar (r / 16 ^ 25), hexChar (r / 16 ^ 26),
      hexChar (r / 16 ^ 27), hexChar (r / 16 ^ 28), hexChar (r / 16 ^ 29)].all
        isHexDigitChar
      && (hexChar (8 + r / 16 ^ 30 % 4) == '8' || hexChar (8 + r / 16 ^ 30 % 4) == '9'
          || hexChar (8 + r / 16 ^ 30 % 4) == 'a' ||
          hexChar (8 + r / 16 ^ 30 % 4) == 'b')) = true
  simp [List.all_cons, isHexDigitChar_hexChar, variant_hexChar]

/-! ## Claim C7: record keys are exactly the schema's field names -/

/-- C7: for every schema and random draws, the synthesized record's keys are
distinct and are exactly the schema's field names (no more, no less), each
holding one generated scalar value. -/
theorem record_keys_exact (props : List FieldSpec)
    (rnd : Nat → Nat) (rs : Nat → String) :
    (keys (recordValues props rnd rs)).Nodup
    ∧ ∀ k, (k ∈ keys (recordValues props rnd rs) ↔ k ∈ props.map FieldSpec.name) := by
  unfold recordValues evalRecord
  rw [keys_evalRecordFrom]
  exact ⟨nodup_keys_generateRecord props, fun k => mem_keys_generateRecord props k⟩

/-! ## Claim C10: missing primary key is tolerated -/

/-- C10: for a schema in which no field is marked `primaryKey`, both source
variants of `generateRecord` skip the override entirely (the record is
exactly the rule-table record) and still return a record with a value under
every schema field name — no error path exists. -/
theorem no_primary_key_no_override (props : List FieldSpec)
    (rnd : Nat → Nat) (rs : Nat → String)
    (h : ∀ p ∈ props, p.primaryKey = false) :
    generateRecord props = baseRecord props
    ∧ generateRecordIndex props = baseRecordIndex props
    ∧ ∀ p ∈ props, p.name ∈ keys (recordValues props rnd rs) := by
  have hf : props.find? (fun p => p.primaryKey) = none := by
    rw [List.find?_eq_none]
    intro p hp
    simp [h p hp]
  refine ⟨?_, ?_, ?_⟩
  · exact generateRecord_of_find?_none props hf
  · exact generateRecordIndex_of_find?_none props hf
  · intro p hp
    exact ((record_keys_exact props rnd rs).2 p.name).mpr (List.mem_map_of_mem _ hp)

/-- Witness for `no_primary_key_no_override` at a concrete one-field schema
with no primary key. -/
theorem no_primary_key_no_override_witness :
    generateRecord [⟨"a", "string", false⟩] = baseRecord [⟨"a", "string", false⟩]
    ∧ "a" ∈ keys (recordValues [⟨"a", "string", false⟩] (fun _ => 0) (fun _ => "")) :=
  have h := no_primary_key_no_override [⟨"a", "string", false⟩]
    (fun _ => 0) (fun _ => "") (by decide)
  ⟨h.1, h.2.2 ⟨"a", "string", false⟩ (by decide)⟩

/-! ## Claim C3: the primary-key override -/

theorem find?_primaryKey_eq (props : List FieldSpec) (pk : FieldSpec)
    (h1 : (props.filter fun p => p.primaryKey).length = 1)
    (h2 : pk ∈ props) (h3 : pk.primaryKey = true) :
    props.find? (fun p => p.primaryKey) = some pk := by
  induction props with
  | nil => simp at h2
  | cons a t ih =>
    by_cases ha : a.primaryKey = true
    · rw [List.find?_cons_of_pos _ ha]
      rcases List.mem_cons.mp h2 with rfl | hm
      · rfl
      · exfalso
        rw [List.filter_cons_of_pos ha, List.length_cons] at h1
        have h1' : (t.filter fun p => p.primaryKey).length + 1 = 1 := h1
        have ht0 : (t.filter fun p => p.primaryKey) = [] :=
          List.length_eq_zero.mp (by omega)
        have : pk ∈ t.filter fun p => p.primaryKey := List.mem_filter.mpr ⟨hm, h3⟩
        rw [ht0] at this
        simp at this
    · have ha' : ¬ ((fun p : FieldSpec => p.primaryKey) a = true) := ha
      rw [List.find?_cons_of_neg _ ha']
      have hm : pk ∈ t := by
        rcases List.mem_cons.mp h2 with rfl | hm
        · exact absurd h3 ha
        · exact hm
      refine ih ?_ hm
      rwa [List.filter_cons_of_neg ha'] at h1

/-- C3: for a schema with exactly one primary-key field, the synthesized
record's value under that field's name is decided by its declared type
alone: `number` yields an integer in `[10, 10^18]`, `uuid` or `string`
yield a string of UUID-v4 shape, and any other declared type leaves the
whole record exactly as the rule table synthesized it (no override). -/
theorem primary_key_override (props : List FieldSpec) (pk : FieldSpec)
    (rnd : Nat → Nat) (rs : Nat → String)
    (h1 : (props.filter fun p => p.primaryKey).length = 1)
    (h2 : pk ∈ props) (h3 : pk.primaryKey = true) :
    (pk.type = "number" →
      ∃ m : ℤ, getVal (recordValues props rnd rs) pk.name (.str "") = .int m
        ∧ 10 ≤ m ∧ m ≤ 10 ^ 18)
    ∧ ((pk.type = "uuid" ∨ pk.type = "string") →
      ∃ s, getVal (recordValues props rnd rs) pk.name (.str "") = .str s
        ∧ isUuidV4 s = true)
    ∧ (pk.type ≠ "number" → pk.type ≠ "uuid" → pk.type ≠ "string" →
      generateRecord props = baseRecord props) := by
  have hf := find?_primaryKey_eq props pk h1 h2 h3
  have hbase : hasKey (baseRecord props) pk.name = true :=
    (hasKey_iff_mem _ _).mpr ((mem_keys_baseRecord props pk.name).mpr
      (List.mem_map_of_mem _ h2))
  refine ⟨?_, ?_, ?_⟩
  · intro hty
    have hg : generateRecord props =
        setKey (baseRecord props) pk.name (.numberInRange 10 1000000000000000000) := by
      rw [generateRecord_of_find?_some props pk hf, if_pos hty]
    have hkk : hasKey (generateRecord props) pk.name = true := by
      rw [hg]
      exact (hasKey_iff_mem _ _).mpr ((mem_keys_setKey _ _ _ _).mpr (Or.inr rfl))
    obtain ⟨j, hj⟩ := getVal_evalRecordFrom rnd rs pk.name Gen.emptyString (.str "")
      (generateRecord props) 0 hkk
    have hv : getVal (generateRecord props) pk.name Gen.emptyString =
        Gen.numberInRange 10 1000000000000000000 := by
      rw [hg]
      exact getVal_setKey_self _ _ _ _
    rw [hv] at hj
    have hmod : rnd j % (1000000000000000000 - 10 + 1) < 1000000000000000000 - 10 + 1 :=
      Nat.mod_lt _ (by norm_num)
    refine ⟨((10 + rnd j % (1000000000000000000 - 10 + 1) : Nat) : ℤ), ?_, ?_, ?_⟩
    · simpa [recordValues, evalRecord, evalGen] using hj
    · omega
    · have : (10 : ℤ) ^ 18 = 1000000000000000000 := by norm_num
      omega
  · intro hty
    have hnn : pk.type ≠ "number" := by
      rcases hty with h | h <;> rw [h] <;> decide
    have hg : generateRecord props = setKey (baseRecord props) pk.name .uuidV4 := by
      rw [generateRecord_of_find?_some props pk hf, if_neg hnn, if_pos hty]
    have hkk : hasKey (generateRecord props) pk.name = true := by
      rw [hg]
      exact (hasKey_iff_mem _ _).mpr ((mem_keys_setKey _ _ _ _).mpr (Or.inr rfl))
    obtain ⟨j, hj⟩ := getVal_evalRecordFrom rnd rs pk.name Gen.emptyString (.str "")
      (generateRecord props) 0 hkk
    have hv : getVal (generateRecord props) pk.name Gen.emptyString = Gen.uuidV4 := by
      rw [hg]
      exact getVal_setKey_self _ _ _ _
    rw [hv] at hj
    refine ⟨uuidStringOf (rnd j), ?_, isUuidV4_uuidStringOf (rnd j)⟩
    simpa [recordValues, evalRecord, evalGen] using hj
  · intro hn hu hs
    rw [generateRecord_of_find?_some props pk hf, if_neg hn, if_neg]
    rintro (h | h)
    · exact hu h
    · exact hs h

/-- Witness for `primary_key_override`: a numeric primary key gets an
integer in range, a uuid primary key gets a UUID-v4-shaped string. -/
theorem primary_key_override_witness :
    (∃ m : ℤ, getVal (recordValues [⟨"id", "number", true⟩] (fun _ => 0) (fun _ => ""))
        "id" (.str "") = .int m ∧ 10 ≤ m ∧ m ≤ 10 ^ 18)
    ∧ (∃ s, getVal (recordValues [⟨"k", "uuid", true⟩] (fun _ => 0) (fun _ => ""))
        "k" (.str "") = .str s ∧ isUuidV4 s = true) :=
  ⟨(primary_key_override [⟨"id", "number", true⟩] ⟨"id", "number", true⟩
      (fun _ => 0) (fun _ => "") (by decide) (by decide) rfl).1 rfl,
   (primary_key_override [⟨"k", "uuid", true⟩] ⟨"k", "uuid", true⟩
      (fun _ => 0) (fun _ => "") (by decide) (by decide) rfl).2.1 (Or.inl rfl)⟩

/-! ## Claim C5: CSV output shape -/

theorem any_isCsvSpecial_doubleQuotes (l : List Char) :
    (doubleQuotes l).any isCsvSpecial = l.any isCsvSpecial := by
  induction l with
  | nil => rfl
  | cons c t ih =>
    by_cases hc : c = '"'
    · subst hc
      simp [doubleQuotes, ih, isCsvSpecial]
    · simp [doubleQuotes, hc, ih]

theorem csvBodyAux_join (props : List FieldSpec)
    (rnd : Nat → Nat → Nat) (rs : Nat → Nat → String) :
    ∀ (rem n : Nat),
      csvBodyAux props rnd rs rem n =
        ((List.range' n rem).map fun i =>
          csvLine props (recordValues props (rnd i) (rs i)) ++ ['\n']).flatten := by
  intro rem
  induction rem with
  | zero => intro n; rfl
  | succ r ih =>
    intro n
    rw [List.range'_succ]
    simp only [List.map_cons, List.flatten_cons, csvBodyAux, ih (n + 1)]
    simp

/-- C5: the complete CSV body is exactly `1 + count` newline-terminated
lines — the header (field names joined by commas) followed by one line per
record, each the comma-join of the rendered field values in schema order —
and a string value is rendered with internal quotes doubled, wrapped in
quotes exactly when it contains a comma, quote or newline. -/
theorem csv_output_shape (props : List FieldSpec) (count : Nat)
    (rnd : Nat → Nat → Nat) (rs : Nat → Nat → String) :
    streamCSVout props count rnd rs =
      ((csvHeader props ::
        (List.range count).map fun i =>
          csvLine props (recordValues props (rnd i) (rs i))).map
        fun l => l ++ ['\n']).flatten
    ∧ (csvHeader props ::
        (List.range count).map fun i =>
          csvLine props (recordValues props (rnd i) (rs i))).length = 1 + count
    ∧ csvHeader props = sepConcat [','] (props.map fun p => p.name.toList)
    ∧ (∀ rec, csvLine props rec =
        sepConcat [','] (props.map fun p => csvField (getVal rec p.name (.str ""))))
    ∧ ∀ s : String, csvField (.str s) =
        (if s.toList.any isCsvSpecial then '"' :: doubleQuotes s.toList ++ ['"']
         else doubleQuotes s.toList) := by
  refine ⟨?_, ?_, rfl, fun rec => rfl, ?_⟩
  · unfold streamCSVout csvBody
    rw [csvBodyAux_join props rnd rs (count - 0) 0]
    simp only [Nat.sub_zero, List.map_cons, List.flatten_cons, ← List.range_eq_range']
    simp
    rfl
  · simp only [List.length_cons, List.length_map, List.length_range]
    omega
  · intro s
    show (if (doubleQuotes s.toList).any isCsvSpecial then
        '"' :: doubleQuotes s.toList ++ ['"'] else doubleQuotes s.toList) = _
    rw [any_isCsvSpecial_doubleQuotes]

/-! ## Claim C6: JSON output shape -/

theorem serializeJson_arr (xs : List Json) :
    serializeJson (.arr xs) =
      '[' :: sepConcat [','] (xs.map serializeJson) ++ [']'] := by
  rw [serializeJson]
  rw [List.attach_map_val xs serializeJson]

theorem serializeJson_obj (fs : List (String × Json)) :
    serializeJson (.obj fs) =
      '{' :: sepConcat [','] (fs.map fun f =>
        '"' :: jsonEscape f.1.toList ++ '"' :: ':' :: serializeJson f.2) ++ ['}'] := by
  rw [serializeJson]
  rw [List.attach_map_val fs
    (fun f => '"' :: jsonEscape f.1.toList ++ '"' :: ':' :: serializeJson f.2)]

theorem valueToJsonChars_eq_serialize (v : Value) :
    valueToJsonChars v = serializeJson (valueToJson v) := by
  cases v <;> simp [valueToJsonChars, valueToJson, serializeJson]

/-- Stringifying a flat record is the canonical serialization of the
corresponding JSON object. -/
theorem stringifyRecord_eq_serialize (rec : List (String × Value)) :
    stringifyRecord rec = serializeJson (recordJson rec) := by
  unfold stringifyRecord recordJson
  rw [serializeJson_obj, List.map_map]
  simp only [Function.comp, valueToJsonChars_eq_serialize]
  rfl

theorem jsonBodyAux_join (props : List FieldSpec) (count : Nat)
    (rnd : Nat → Nat → Nat) (rs : Nat → Nat → String) :
    ∀ (rem n : Nat), n + rem = count →
      jsonBodyAux props count rnd rs rem n =
        sepConcat [','] ((List.range' n rem).map fun i =>
          stringifyRecord (recordValues props (rnd i) (rs i))) := by
  intro rem
  induction rem with
  | zero => intro n _; rfl
  | succ r ih =>
    intro n h
    rw [List.range'_succ, List.map_cons]
    cases r with
    | zero =>
      have hn : ¬ (n + 1 < count) := by omega
      simp [jsonBodyAux, hn, sepConcat]
    | succ r' =>
      have hn : n + 1 < count := by omega
      have ih' := ih (n + 1) (by omega)
      show (stringifyRecord (recordValues props (rnd n) (rs n)) ++
          (if n + 1 < count then [','] else [])) ++
          jsonBodyAux props count rnd rs (r' + 1) (n + 1) = _
      rw [if_pos hn, ih', List.range'_succ, List.map_cons]
      rw [sepConcat]

/-- C6: the complete JSON body is the serialization of a well-formed JSON
array with exactly `count` elements, each the record serialized as a single
object keyed by field name; concretely it is `[`, the stringified records
with a comma between consecutive records (none after the last), then `]`. -/
theorem json_output_shape (props : List FieldSpec) (count : Nat)
    (rnd : Nat → Nat → Nat) (rs : Nat → Nat → String) :
    streamJSONout props count rnd rs =
      serializeJson (.arr ((List.range count).map fun i =>
        recordJson (recordValues props (rnd i) (rs i))))
    ∧ streamJSONout props count rnd rs =
      '[' :: sepConcat [','] ((List.range count).map fun i =>
        stringifyRecord (recordValues props (rnd i) (rs i))) ++ [']']
    ∧ ((List.range count).map fun i =>
        recordJson (recordValues props (rnd i) (rs i))).length = count
    ∧ ∀ rec, stringifyRecord rec = '{' :: sepConcat [','] (rec.map fun kv =>
        '"' :: jsonEscape kv.1.toList ++ '"' :: ':' :: valueToJsonChars kv.2) ++ ['}'] := by
  have hbody : streamJSONout props count rnd rs =
      '[' :: sepConcat [','] ((List.range count).map fun i =>
        stringifyRecord (recordValues props (rnd i) (rs i))) ++ [']'] := by
    unfold streamJSONout jsonBody
    rw [Nat.sub_zero, jsonBodyAux_join props count rnd rs count 0 (by omega)]
    rw [List.range_eq_range']
  refine ⟨?_, hbody, by simp, fun rec => rfl⟩
  rw [hbody, serializeJson_arr, List.map_map]
  simp only [Function.comp, stringifyRecord_eq_serialize]
  rfl

/-! ## Claim C8: invalid requests are rejected before streaming -/

/-- If the handler streamed anything, every validation check passed. -/
theorem handle_streamed_valid (req : Request)
    (rnd : Nat → Nat → Nat) (rs : Nat → Nat → String)
    (ct fn : String) (body : List Char)
    (h : handle req rnd rs = .streamed ct fn body) :
    req.fileType ∈ ["json", "csv", "xml"]
    ∧ (∃ fs, req.fileSize = some fs ∧ 1 ≤ fs ∧ fs ≤ 1000)
    ∧ (∃ props, req.properties = some props ∧ props.length ≠ 0
        ∧ (props.filter fun p => p.primaryKey).length = 1
        ∧ ∀ p ∈ props, trimString p.name ≠ "" ∧ p.type ∈ validTypes) := by
  unfold handle at h
  split at h
  · exact absurd h (by simp)
  next hft =>
  split at h
  · exact absurd h (by simp)
  next fs hfs =>
  split at h
  · exact absurd h (by simp)
  next hrange =>
  split at h
  · exact absurd h (by simp)
  next props hprops =>
  split at h
  · exact absurd h (by simp)
  next hlen =>
  split at h
  · exact absurd h (by simp)
  next hpk1 =>
  split at h
  · exact absurd h (by simp)
  next hpk0 =>
  split at h
  · exact absurd h (by simp)
  next hfields =>
  push_neg at hrange
  simp only [not_lt, gt_iff_lt] at hpk1
  simp only [List.any_eq_true, not_exists, not_and, not_or] at hfields
  refine ⟨?_, ⟨fs, hfs, hrange.1, hrange.2⟩, ⟨props, hprops, hlen, by omega, ?_⟩⟩
  · simp at hft ⊢
    by_cases h1 : req.fileType = "json"
    · exact Or.inl h1
    · by_cases h2 : req.fileType = "csv"
      · exact Or.inr (Or.inl h2)
      · exact Or.inr (Or.inr (hft h1 h2))
  · intro p hp
    have hf := hfields p hp
    simp only [Bool.or_eq_true, decide_eq_true_eq, Bool.not_eq_true, not_or] at hf
    refine ⟨hf.1, ?_⟩
    have hc : validTypes.contains p.type = true := by
      have := hf.2
      cases hx : validTypes.contains p.type
      · rw [hx] at this
        simp at this
      · rfl
    exact (List.elem_iff).mp hc

/-- C8: every request that is invalid in one of the listed ways — bad format
tag, missing or out-of-range fileSize, missing, non-array or empty schema,
primary-key count different from one, a field with an empty name or a type
outside the eight allowed tags — is answered with a 400 error, and no
streamed response (hence no prologue, record or epilogue byte) is produced
for it. -/
theorem invalid_request_rejected (req : Request)
    (rnd : Nat → Nat → Nat) (rs : Nat → Nat → String)
    (hbad : req.fileType ∉ ["json", "csv", "xml"]
      ∨ req.fileSize = none
      ∨ (∃ fs, req.fileSize = some fs ∧ (fs < 1 ∨ fs > 1000))
      ∨ req.properties = none
      ∨ req.properties = some []
      ∨ (∃ props, req.properties = some props
          ∧ (props.filter fun p => p.primaryKey).length ≠ 1)
      ∨ (∃ props p, req.properties = some props ∧ p ∈ props
          ∧ (p.name = "" ∨ p.type ∉ validTypes))) :
    (∃ m, handle req rnd rs = .badRequest m)
    ∧ ∀ ct fn body, handle req rnd rs ≠ .streamed ct fn body := by
  cases hres : handle req rnd rs with
  | badRequest m =>
    refine ⟨⟨m, rfl⟩, ?_⟩
    intro ct fn body hh
    exact Response.noConfusion hh
  | streamed ct fn body =>
    exfalso
    obtain ⟨h1, ⟨fs, hfs, hfs1, hfs2⟩, ⟨props, hp, hlen, hpk, hfields⟩⟩ :=
      handle_streamed_valid req rnd rs ct fn body hres
    rcases hbad with hb | hb | hb | hb | hb | hb | hb
    · exact hb h1
    · rw [hb] at hfs
      exact Option.noConfusion hfs
    · obtain ⟨fs', hfs', hout⟩ := hb
      rw [hfs'] at hfs
      injection hfs with he
      subst he
      rcases hout with hlt | hgt
      · linarith
      · linarith
    · rw [hb] at hp
      exact Option.noConfusion hp
    · rw [hb] at hp
      injection hp with he
      rw [← he] at hlen
      simp at hlen
    · obtain ⟨props', hp', hne⟩ := hb
      rw [hp'] at hp
      injection hp with he
      subst he
      exact hne hpk
    · obtain ⟨props', p, hp', hmem, hbadf⟩ := hb
      rw [hp'] at hp
      injection hp with he
      subst he
      obtain ⟨htr, hty⟩ := hfields p hmem
      rcases hbadf with hname | htype
      · apply htr
        rw [hname]
        decide
      · exact htype hty

/-- Witness for `invalid_request_rejected`: a request with an unsupported
format tag is answered with a 400 error and nothing is streamed. -/
theorem invalid_request_rejected_witness :
    (∃ m, handle ⟨"yaml", some 1, some [⟨"id", "uuid", true⟩]⟩
      (fun _ _ => 0) (fun _ _ => "") = .badRequest m)
    ∧ ∀ ct fn body, handle ⟨"yaml", some 1, some [⟨"id", "uuid", true⟩]⟩
      (fun _ _ => 0) (fun _ _ => "") ≠ .streamed ct fn body :=
  invalid_request_rejected ⟨"yaml", some 1, some [⟨"id", "uuid", true⟩]⟩
    (fun _ _ => 0) (fun _ _ => "") (Or.inl (by decide))

/-! ## Claim C1: backpressure-driven flow control -/

theorem synthsOf_nil : synthsOf [] = [] := rfl

theorem synthsOf_synth (i : Nat) (t : List Ev) :
    synthsOf (.synth i :: t) = i :: synthsOf t := rfl

theorem synthsOf_writeOk (i : Nat) (t : List Ev) :
    synthsOf (.writeOk i :: t) = synthsOf t := rfl

theorem synthsOf_writeFull (i : Nat) (t : List Ev) :
    synthsOf (.writeFull i :: t) = synthsOf t := rfl

theorem synthsOf_drain (t : List Ev) : synthsOf (.drain :: t) = synthsOf t := rfl

theorem synthsOf_done (t : List Ev) : synthsOf (.done :: t) = synthsOf t := rfl

theorem synthsOf_append (a b : List Ev) :
    synthsOf (a ++ b) = synthsOf a ++ synthsOf b :=
  List.filterMap_append a b _

theorem burstEndAux_ge (w : Nat → Bool) : ∀ rem n, n ≤ burstEndAux w rem n := by
  intro rem
  induction rem with
  | zero => intro n; exact Nat.le_refl n
  | succ r ih =>
    intro n
    show n ≤ if w (n + 1) then burstEndAux w r (n + 1) else n + 1
    split_ifs with hw
    · exact Nat.le_trans (Nat.le_succ n) (ih (n + 1))
    · exact Nat.le_succ n

theorem burstEndAux_le (w : Nat → Bool) : ∀ rem n, burstEndAux w rem n ≤ n + rem := by
  intro rem
  induction rem with
  | zero => intro n; simp [burstEndAux]
  | succ r ih =>
    intro n
    show (if w (n + 1) then burstEndAux w r (n + 1) else n + 1) ≤ n + (r + 1)
    split_ifs with hw
    · have := ih (n + 1)
      omega
    · omega

theorem burstEndAux_progress (w : Nat → Bool) (rem n : Nat) (h : 1 ≤ rem) :
    n + 1 ≤ burstEndAux w rem n := by
  cases rem with
  | zero => omega
  | succ r =>
    show n + 1 ≤ if w (n + 1) then burstEndAux w r (n + 1) else n + 1
    split_ifs with hw
    · exact burstEndAux_ge w r (n + 1)
    · exact Nat.le_refl _

theorem synthsOf_burstTraceAux (w : Nat → Bool) :
    ∀ rem n, synthsOf (burstTraceAux w rem n) =
      List.range' (n + 1) (burstEndAux w rem n - n) := by
  intro rem
  induction rem with
  | zero => intro n; simp [burstTraceAux, burstEndAux, synthsOf]
  | succ r ih =>
    intro n
    show synthsOf (.synth (n + 1) ::
        (if w (n + 1) then .writeOk (n + 1) :: burstTraceAux w r (n + 1)
         else [.writeFull (n + 1)])) =
      List.range' (n + 1) ((if w (n + 1) then burstEndAux w r (n + 1) else n + 1) - n)
    split_ifs with hw
    · rw [synthsOf_synth, synthsOf_writeOk, ih (n + 1)]
      have hge := burstEndAux_ge w r (n + 1)
      rw [show burstEndAux w r (n + 1) - n = (burstEndAux w r (n + 1) - (n + 1)) + 1
        from by omega]
      rw [List.range'_succ]
    · rw [synthsOf_synth, synthsOf_writeFull, synthsOf_nil]
      rw [show n + 1 - n = 1 from by omega]
      simp [List.range']

theorem burstEnd_ge (count : Nat) (w : Nat → Bool) (n : Nat) :
    n ≤ burstEnd count w n :=
  burstEndAux_ge w (count - n) n

theorem burstEnd_le_count (count : Nat) (w : Nat → Bool) (n : Nat) (h : n ≤ count) :
    burstEnd count w n ≤ count := by
  have := burstEndAux_le w (count - n) n
  unfold burstEnd
  omega

theorem burstEnd_progress (count : Nat) (w : Nat → Bool) (n : Nat) (h : n < count) :
    n + 1 ≤ burstEnd count w n :=
  burstEndAux_progress w (count - n) n (by omega)

theorem synthsOf_burstTrace (count : Nat) (w : Nat → Bool) (n : Nat) :
    synthsOf (burstTrace count w n) =
      List.range' (n + 1) (burstEnd count w n - n) :=
  synthsOf_burstTraceAux w (count - n) n

theorem sessionTrace_stall0 (count : Nat) (w : Nat → Bool) (n : Nat)
    (h : burstEnd count w n < count) :
    sessionTrace count w 0 n = burstTrace count w n := by
  unfold sessionTrace
  rw [if_pos h]

theorem sessionTrace_stallS (count : Nat) (w : Nat → Bool) (n d' : Nat)
    (h : burstEnd count w n < count) :
    sessionTrace count w (d' + 1) n =
      burstTrace count w n ++ .drain :: sessionTrace count w d' (burstEnd count w n) := by
  conv_lhs => unfold sessionTrace
  rw [if_pos h]

theorem sessionTrace_finish (count : Nat) (w : Nat → Bool) (n d : Nat)
    (h : ¬ burstEnd count w n < count) :
    sessionTrace count w d n = burstTrace count w n ++ [.done] := by
  unfold sessionTrace
  rw [if_neg h]

theorem sessionEnd_zero (count : Nat) (w : Nat → Bool) (n : Nat) :
    sessionEnd count w 0 n = burstEnd count w n := by
  unfold sessionEnd
  split_ifs <;> rfl

theorem sessionEnd_stallS (count : Nat) (w : Nat → Bool) (n d' : Nat)
    (h : burstEnd count w n < count) :
    sessionEnd count w (d' + 1) n = sessionEnd count w d' (burstEnd count w n) := by
  conv_lhs => unfold sessionEnd
  rw [if_pos h]

theorem sessionEnd_finish (count : Nat) (w : Nat → Bool) (n d : Nat)
    (h : ¬ burstEnd count w n < count) :
    sessionEnd count w d n = burstEnd count w n := by
  unfold sessionEnd
  rw [if_neg h]

theorem sessionEnd_ge (count : Nat) (w : Nat → Bool) :
    ∀ d n, n ≤ sessionEnd count w d n := by
  intro d
  induction d with
  | zero =>
    intro n
    rw [sessionEnd_zero]
    exact burstEnd_ge count w n
  | succ d' ih =>
    intro n
    by_cases h : burstEnd count w n < count
    · rw [sessionEnd_stallS count w n d' h]
      exact Nat.le_trans (burstEnd_ge count w n) (ih _)
    · rw [sessionEnd_finish count w n _ h]
      exact burstEnd_ge count w n

theorem synthsOf_sessionTrace (count : Nat) (w : Nat → Bool) :
    ∀ d n, synthsOf (sessionTrace count w d n) =
      List.range' (n + 1) (sessionEnd count w d n - n) := by
  intro d
  induction d with
  | zero =>
    intro n
    rw [sessionEnd_zero]
    by_cases h : burstEnd count w n < count
    · rw [sessionTrace_stall0 count w n h]
      exact synthsOf_burstTrace count w n
    · rw [sessionTrace_finish count w n 0 h, synthsOf_append, synthsOf_burstTrace]
      simp [synthsOf]
  | succ d' ih =>
    intro n
    by_cases h : burstEnd count w n < count
    · rw [sessionTrace_stallS count w n d' h, synthsOf_append, synthsOf_burstTrace,
        synthsOf_drain, ih (burstEnd count w n), sessionEnd_stallS count w n d' h]
      have h1 : n ≤ burstEnd count w n := burstEnd_ge count w n
      have h2 : burstEnd count w n ≤ sessionEnd count w d' (burstEnd count w n) :=
        sessionEnd_ge count w d' _
      rw [show burstEnd count w n + 1 = (n + 1) + 1 * (burstEnd count w n - n)
        from by omega]
      rw [List.range'_append]
      congr 1
      omega
    · rw [sessionTrace_finish count w n _ h, synthsOf_append, synthsOf_burstTrace,
        sessionEnd_finish count w n _ h]
      simp [synthsOf]

theorem burstTraceAux_head (w : Nat → Bool) (rem n : Nat) (h : 1 ≤ rem) :
    ∃ t, burstTraceAux w rem n = .synth (n + 1) :: t := by
  cases rem with
  | zero => omega
  | succ r => exact ⟨_, rfl⟩

theorem sessionTrace_head (count : Nat) (w : Nat → Bool) (d n : Nat) (h : n < count) :
    ∃ t, sessionTrace count w d n = .synth (n + 1) :: t := by
  obtain ⟨t', ht'⟩ : ∃ t', burstTrace count w n = .synth (n + 1) :: t' := by
    unfold burstTrace
    exact burstTraceAux_head w (count - n) n (by omega)
  unfold sessionTrace
  split_ifs with hc
  · cases d with
    | zero => exact ⟨t', ht'⟩
    | succ d' =>
      rw [ht']
      exact ⟨_, rfl⟩
  · rw [ht']
    exact ⟨_, rfl⟩

theorem burstTraceAux_writeFull (w : Nat → Bool) :
    ∀ rem n pre suf N, burstTraceAux w rem n = pre ++ .writeFull N :: suf →
      suf = [] ∧ N = burstEndAux w rem n ∧ w N = false := by
  intro rem
  induction rem with
  | zero =>
    intro n pre suf N h
    rw [burstTraceAux] at h
    cases pre <;> simp at h
  | succ r ih =>
    intro n pre suf N h
    rw [show burstTraceAux w (r + 1) n = .synth (n + 1) ::
        (if w (n + 1) then .writeOk (n + 1) :: burstTraceAux w r (n + 1)
         else [.writeFull (n + 1)]) from rfl] at h
    cases pre with
    | nil =>
      simp only [List.nil_append] at h
      injection h with h1 h2
      exact Ev.noConfusion h1
    | cons p pre' =>
      simp only [List.cons_append] at h
      injection h with h1 h2
      by_cases hw : w (n + 1) = true
      · rw [if_pos hw] at h2
        cases pre' with
        | nil =>
          simp only [List.nil_append] at h2
          injection h2 with h3 h4
          exact Ev.noConfusion h3
        | cons q pre'' =>
          simp only [List.cons_append] at h2
          injection h2 with h3 h4
          obtain ⟨hs, hN, hwN⟩ := ih (n + 1) pre'' suf N h4
          refine ⟨hs, ?_, hwN⟩
          have he : burstEndAux w (r + 1) n = burstEndAux w r (n + 1) := by
            show (if w (n + 1) then burstEndAux w r (n + 1) else n + 1) = _
            rw [if_pos hw]
          rw [he]
          exact hN
      · rw [if_neg hw] at h2
        cases pre' with
        | nil =>
          simp only [List.nil_append] at h2
          injection h2 with h3 h4
          injection h3 with hN
          have he : burstEndAux w (r + 1) n = n + 1 := by
            show (if w (n + 1) then burstEndAux w r (n + 1) else n + 1) = n + 1
            rw [if_neg hw]
          refine ⟨h4.symm, ?_, ?_⟩
          · rw [he, ← hN]
          · rw [← hN]
            cases hx : w (n + 1)
            · rfl
            · exact absurd hx hw
        | cons q pre'' =>
          injection h2 with h3 h4
          cases pre'' <;> simp at h4

theorem burstTrace_writeFull (count : Nat) (w : Nat → Bool) (n : Nat)
    (pre suf : List Ev) (N : Nat)
    (h : burstTrace count w n = pre ++ .writeFull N :: suf) :
    suf = [] ∧ N = burstEnd count w n ∧ w N = false :=
  burstTraceAux_writeFull w (count - n) n pre suf N h

theorem split_append_occurrence {α : Type} {x : α} :
    ∀ (a b pre suf : List α), a ++ b = pre ++ x :: suf →
      (∃ suf₁, a = pre ++ x :: suf₁ ∧ suf = suf₁ ++ b)
      ∨ (∃ pre₁, pre = a ++ pre₁ ∧ b = pre₁ ++ x :: suf) := by
  intro a
  induction a with
  | nil =>
    intro b pre suf h
    simp only [List.nil_append] at h
    exact Or.inr ⟨pre, by simp, h⟩
  | cons e a' ih =>
    intro b pre suf h
    cases pre with
    | nil =>
      simp only [List.cons_append, List.nil_append] at h
      injection h with h1 h2
      subst h1
      exact Or.inl ⟨a', by simp, h2.symm⟩
    | cons p pre' =>
      simp only [List.cons_append] at h
      injection h with h1 h2
      subst h1
      rcases ih b pre' suf h2 with ⟨suf₁, ha, hs⟩ | ⟨pre₁, hp, hb⟩
      · refine Or.inl ⟨suf₁, ?_, hs⟩
        rw [ha]
        simp
      · refine Or.inr ⟨pre₁, ?_, hb⟩
        rw [hp]
        simp

theorem sessionTrace_writeFull (count : Nat) (w : Nat → Bool) :
    ∀ d n pre suf N, sessionTrace count w d n = pre ++ .writeFull N :: suf →
      suf = [] ∨ suf = [.done]
      ∨ ∃ s', suf = .drain :: s' ∧ s'.head? = some (.synth (N + 1)) := by
  intro d
  induction d with
  | zero =>
    intro n pre suf N h
    by_cases hc : burstEnd count w n < count
    · rw [sessionTrace_stall0 count w n hc] at h
      exact Or.inl (burstTrace_writeFull count w n pre suf N h).1
    · rw [sessionTrace_finish count w n 0 hc] at h
      rcases split_append_occurrence _ _ _ _ h with ⟨suf₁, hbt, hs⟩ | ⟨pre₁, hp, hb⟩
      · obtain ⟨h0, _, _⟩ := burstTrace_writeFull count w n pre suf₁ N hbt
        subst h0
        simp only [List.nil_append] at hs
        exact Or.inr (Or.inl hs)
      · cases pre₁ with
        | nil =>
          simp only [List.nil_append] at hb
          injection hb with h1 h2
          exact Ev.noConfusion h1
        | cons q pre₂ =>
          injection hb with h1 h2
          cases pre₂ <;> simp at h2
  | succ d' ih =>
    intro n pre suf N h
    by_cases hc : burstEnd count w n < count
    · rw [sessionTrace_stallS count w n d' hc] at h
      rcases split_append_occurrence _ _ _ _ h with ⟨suf₁, hbt, hs⟩ | ⟨pre₁, hp, hb⟩
      · obtain ⟨h0, hN, _⟩ := burstTrace_writeFull count w n pre suf₁ N hbt
        subst h0
        simp only [List.nil_append] at hs
        refine Or.inr (Or.inr ⟨sessionTrace count w d' (burstEnd count w n), hs, ?_⟩)
        obtain ⟨t, ht⟩ := sessionTrace_head count w d' (burstEnd count w n) hc
        rw [ht, ← hN]
        rfl
      · cases pre₁ with
        | nil =>
          simp only [List.nil_append] at hb
          injection hb with h1 h2
          exact Ev.noConfusion h1
        | cons q pre₂ =>
          injection hb with h1 h2
          exact ih (burstEnd count w n) pre₂ suf N h2
    · rw [sessionTrace_finish count w n _ hc] at h
      rcases split_append_occurrence _ _ _ _ h with ⟨suf₁, hbt, hs⟩ | ⟨pre₁, hp, hb⟩
      · obtain ⟨h0, _, _⟩ := burstTrace_writeFull count w n pre suf₁ N hbt
        subst h0
        simp only [List.nil_append] at hs
        exact Or.inr (Or.inl hs)
      · cases pre₁ with
        | nil =>
          simp only [List.nil_append] at hb
          injection hb with h1 h2
          exact Ev.noConfusion h1
        | cons q pre₂ =>
          injection hb with h1 h2
          cases pre₂ <;> simp at h2

theorem sessionEnd_complete (count : Nat) (w : Nat → Bool) :
    ∀ d n, n ≤ count → count - n ≤ d → sessionEnd count w d n = count := by
  intro d
  induction d with
  | zero =>
    intro n h1 h2
    have hn : n = count := by omega
    have hbe : burstEnd count w n = n := by
      unfold burstEnd
      rw [show count - n = 0 from by omega]
      rfl
    rw [sessionEnd_zero, hbe]
    exact hn
  | succ d' ih =>
    intro n h1 h2
    by_cases hc : burstEnd count w n < count
    · rw [sessionEnd_stallS count w n d' hc]
      have hge := burstEnd_ge count w n
      have hn : n < count := by omega
      have hprog := burstEnd_progress count w n hn
      exact ih (burstEnd count w n) (by omega) (by omega)
    · rw [sessionEnd_finish count w n _ hc]
      have := burstEnd_le_count count w n h1
      omega

/-- C1: in every generation session, (a) the records synthesized form the
consecutive run starting at the resume point — none skipped, none repeated,
in order; (b) immediately after a write reports backpressure on record `N`,
either nothing further happens before a drain signal (no record is
synthesized while suspended; if no drain ever arrives the trace simply
ends), or the stream was already complete (`done`), or the very next events
are the drain signal followed by the synthesis of record `N + 1`; and
(c) given enough drain signals, exactly records `n+1 .. count` are
synthesized, each exactly once. -/
theorem flow_control_correct (count : Nat) (w : Nat → Bool) (d n : Nat) :
    synthsOf (sessionTrace count w d n) =
      List.range' (n + 1) ((synthsOf (sessionTrace count w d n)).length)
    ∧ (∀ pre suf N, sessionTrace count w d n = pre ++ Ev.writeFull N :: suf →
        suf = [] ∨ suf = [Ev.done]
        ∨ ∃ s', suf = Ev.drain :: s' ∧ s'.head? = some (Ev.synth (N + 1)))
    ∧ (n ≤ count → count - n ≤ d →
        synthsOf (sessionTrace count w d n) = List.range' (n + 1) (count - n)) := by
  refine ⟨?_, sessionTrace_writeFull count w d n, ?_⟩
  · rw [synthsOf_sessionTrace count w d n, List.length_range']
  · intro h1 h2
    rw [synthsOf_sessionTrace count w d n, sessionEnd_complete count w d n h1 h2]

/-- Witness for `flow_control_correct`: with two records to stream, a sink
that signals backpressure on the first write and two drain signals
available, the trace is synth 1, backpressure, drain, synth 2, write ok,
done — and the theorem's conclusions hold at that trace concretely. -/
theorem flow_control_correct_witness :
    sessionTrace 2 (fun i => i != 1) 2 0 =
      [Ev.synth 1, Ev.writeFull 1, Ev.drain, Ev.synth 2, Ev.writeOk 2, Ev.done]
    ∧ synthsOf (sessionTrace 2 (fun i => i != 1) 2 0) = List.range' 1 (2 - 0)
    ∧ ([Ev.drain, Ev.synth 2, Ev.writeOk 2, Ev.done] = ([] : List Ev)
        ∨ [Ev.drain, Ev.synth 2, Ev.writeOk 2, Ev.done] = [Ev.done]
        ∨ ∃ s', [Ev.drain, Ev.synth 2, Ev.writeOk 2, Ev.done] = Ev.drain :: s'
            ∧ s'.head? = some (Ev.synth (1 + 1))) :=
  ⟨by decide,
   (flow_control_correct 2 (fun i => i != 1) 2 0).2.2 (by decide) (by decide),
   (flow_control_correct 2 (fun i => i != 1) 2 0).2.1 [Ev.synth 1]
     [Ev.drain, Ev.synth 2, Ev.writeOk 2, Ev.done] 1 (by decide)⟩

end FileBackend
